import Mathlib

/-!
Verification of the rate-reconciliation routine of the Unanet PMO dashboard
repository (function `update_bill_rate` in
`unanet_data_refresh1/planMatrix-billRate-Update/function_app.py`).

The pandas pipeline is embedded shallowly:

* a DataFrame column of possibly-missing text cells is a `List (Option String)`
  (`none` models a NaN cell produced by `read_csv`);
* `dropna(subset=[...])` (line 85) is a `filter` keeping rows whose six
  relevant cells are all present;
* `astype("Int64")` on a key column (lines 88-91) converts each cell with
  `toInt64Cell`: a missing cell becomes `none` (pandas NA) and a non-numeric
  cell raises, which we model with `Except`;
* the rate conversion (lines 94-100) removes the characters `$` and `,`
  (`str.replace` with empty replacement removes every occurrence) and then
  parses a Python float literal; rates are modelled as exact rationals;
* `pd.to_datetime` (lines 103-106) parses ISO dates and raises on
  unparseable text;
* the groupby-max deduplication (lines 109-112) is `collapse`, an
  association list keyed by the five-field composite key keeping the maximum
  rate per key;
* the left merge (lines 115-119) is `leftMerge`, which keeps every baseline
  row in order and, like a pandas left merge, duplicates a baseline row once
  per matching right-hand row (deduplication is what rules that out);
* `combine_first` plus the column drop (lines 122-125) is `applyRate`;
* the row-count post-condition (lines 128-133) is `checkRowCount`; an
  `Except.error` result models the HTTP 500 path, in which nothing is
  written back to blob storage (the write at line 136 happens only on the
  success path).
-/

/-- A parsed calendar date (the result of `pd.to_datetime`); only equality of
dates matters for the join. -/
structure PDate where
  year : Nat
  month : Nat
  day : Nat
deriving DecidableEq

/-- Errors surfaced by the pipeline.  `badIntKey` and `badDate` model the
exceptions raised by `astype("Int64")` and `pd.to_datetime`; `malformedRate`
models the `ValueError` raised by `astype(float)` on a rate that is still
non-numeric after currency stripping (the MalformedRateError of the spec);
`rowCountMismatch` models the distinguished HTTP 500 response of lines
131-133 and carries both row counts. -/
inductive Err where
  | badIntKey (s : String)
  | badDate (s : String)
  | malformedRate (s : String)
  | rowCountMismatch (original updated : Nat)
deriving DecidableEq

/-- Digits-to-number accumulator (base 10). -/
def natOfDigits (cs : List Char) : Nat :=
  cs.foldl (fun n c => 10 * n + (c.toNat - 48)) 0

/-- Parses a nonempty all-digit character list. -/
def parseNatDigits (cs : List Char) : Option Nat :=
  if cs ≠ [] ∧ cs.all Char.isDigit = true then some (natOfDigits cs) else none

/-- Models the per-cell conversion of `astype("Int64")` on a text cell: an
optional sign followed by digits.  Non-numeric text makes the conversion
fail (modelled by `none` here, turned into an error by `toInt64Cell`). -/
def parseIntStr (s : String) : Option Int :=
  match s.toList with
  | '-' :: rest => (parseNatDigits rest).map (fun n => -(n : Int))
  | '+' :: rest => (parseNatDigits rest).map (fun n => (n : Int))
  | cs => (parseNatDigits cs).map (fun n => (n : Int))

/-- Splits a character list on a separator character. -/
def splitOnChar (sep : Char) : List Char → List (List Char)
  | [] => [[]]
  | c :: cs =>
    match splitOnChar sep cs with
    | [] => [[]]
    | g :: gs => if c = sep then [] :: g :: gs else (c :: g) :: gs

/-- Models `pd.to_datetime` on an ISO `YYYY-MM-DD` text cell; anything else
is unparseable (`pd.to_datetime` accepts further formats, but every claim
depends only on parse success versus failure and on date equality). -/
def parseDate (s : String) : Option PDate :=
  match splitOnChar '-' s.toList with
  | [ys, ms, ds] => do
    let y ← parseNatDigits ys
    let m ← parseNatDigits ms
    let d ← parseNatDigits ds
    if 1 ≤ m ∧ m ≤ 12 ∧ 1 ≤ d ∧ d ≤ 31 then pure (⟨y, m, d⟩ : PDate) else none
  | _ => none

/-- Removes every occurrence of `$` and `,`: the effect of
`str.replace("$", "").str.replace(",", "")` at lines 97-98. -/
def stripCurrency (s : String) : String :=
  String.mk (s.toList.filter (fun c => !(c == '$' || c == ',')))

/-- Drops surrounding whitespace, as Python `float` does. -/
def trimWs (cs : List Char) : List Char :=
  ((cs.dropWhile Char.isWhitespace).reverse.dropWhile Char.isWhitespace).reverse

/-- Mantissa of a float literal: `digits`, `digits.digits`, `digits.` or
`.digits`, valued as an exact rational. -/
def parseMantissa (cs : List Char) : Option ℚ :=
  let ip := cs.takeWhile Char.isDigit
  let rest := cs.dropWhile Char.isDigit
  match rest with
  | [] => if ip ≠ [] then some ((natOfDigits ip : ℚ)) else none
  | '.' :: fp =>
    if (ip ≠ [] ∨ fp ≠ []) ∧ fp.all Char.isDigit = true then
      some ((natOfDigits ip : ℚ) + (natOfDigits fp : ℚ) / ((10 : ℚ) ^ fp.length))
    else none
  | _ => none

/-- Exponent part of a float literal (after `e` or `E`). -/
def parseExpPart (cs : List Char) : Option Int :=
  match cs with
  | '-' :: ds => (parseNatDigits ds).map (fun n => -(n : Int))
  | '+' :: ds => (parseNatDigits ds).map (fun n => (n : Int))
  | ds => (parseNatDigits ds).map (fun n => (n : Int))

/-- Applies a decimal exponent to a rational. -/
def applyExp (q : ℚ) : Int → ℚ
  | Int.ofNat n => q * (10 : ℚ) ^ n
  | Int.negSucc n => q / (10 : ℚ) ^ (n + 1)

/-- Unsigned float literal: mantissa with an optional exponent. -/
def parseUnsignedFloat (cs : List Char) : Option ℚ :=
  let m := cs.takeWhile (fun c => !(c == 'e' || c == 'E'))
  let r := cs.dropWhile (fun c => !(c == 'e' || c == 'E'))
  match r with
  | [] => parseMantissa m
  | _ :: es => do
    let q ← parseMantissa m
    let e ← parseExpPart es
    pure (applyExp q e)

/-- Models Python `float(s)` on finite decimal literals, valued exactly in
`ℚ` (the idealization of the float64 used by pandas; no claim depends on
rounding). -/
def pyFloat (s : String) : Option ℚ :=
  match trimWs s.toList with
  | '-' :: rest => (parseUnsignedFloat rest).map Neg.neg
  | '+' :: rest => parseUnsignedFloat rest
  | rest => parseUnsignedFloat rest

/-- Per-cell effect of `astype("Int64")` (lines 88-91): a missing cell
becomes pandas NA without error, a non-numeric cell raises. -/
def toInt64Cell (c : Option String) : Except Err (Option Int) :=
  match c with
  | none => Except.ok none
  | some s =>
    match parseIntStr s with
    | some n => Except.ok (some n)
    | none => Except.error (Err.badIntKey s)

/-- Per-cell effect of `pd.to_datetime` (lines 103-106): a missing cell
becomes NaT without error, unparseable text raises. -/
def toDateCell (c : Option String) : Except Err (Option PDate) :=
  match c with
  | none => Except.ok none
  | some s =>
    match parseDate s with
    | some d => Except.ok (some d)
    | none => Except.error (Err.badDate s)

/-- Per-cell effect of the rate conversion (lines 94-100): strip currency
formatting, then parse as a number; residual non-numeric text raises. -/
def parseRateCell (c : Option String) : Except Err (Option ℚ) :=
  match c with
  | none => Except.ok none
  | some s =>
    match pyFloat (stripCurrency s) with
    | some q => Except.ok (some q)
    | none => Except.error (Err.malformedRate s)

/-- A normalized baseline (planned-matrix) row.  `extra` stands for the
passthrough columns the reconciliation must leave untouched. -/
structure PlanRow where
  personKey : Option Int
  projectKey : Option Int
  laborCategoryName : Option String
  beginDate : Option PDate
  endDate : Option PDate
  billRate : Option ℚ
  extra : String
deriving DecidableEq

/-- A normalized override (labor-category) row after column renaming. -/
structure OverrideRow where
  personKey : Option Int
  projectKey : Option Int
  laborCategoryName : Option String
  beginDate : Option PDate
  endDate : Option PDate
  newBillRate : Option ℚ
deriving DecidableEq

/-- A raw baseline row as loaded by `read_csv`: text cells for the columns
the pipeline retypes, the rate column already numeric (it is not converted
by the code), and `extra` for the passthrough columns. -/
structure RawPlanRow where
  personKey : Option String
  projectKey : Option String
  laborCategoryName : Option String
  beginDate : Option String
  endDate : Option String
  billRate : Option ℚ
  extra : String
deriving DecidableEq

/-- A raw override row after the renaming of lines 73-82. -/
structure RawOverrideRow where
  personKey : Option String
  projectKey : Option String
  laborCategoryName : Option String
  beginDate : Option String
  endDate : Option String
  newBillRate : Option String
deriving DecidableEq

/-- The `dropna(subset=[...])` test of line 85: all six relevant cells
present. -/
def RawOverrideRow.rawComplete (r : RawOverrideRow) : Bool :=
  r.personKey.isSome && r.projectKey.isSome && r.laborCategoryName.isSome &&
  r.beginDate.isSome && r.endDate.isSome && r.newBillRate.isSome

/-- Completeness of a typed override row (step 1 of the reconciliation
algorithm in the spec; after normalization every surviving raw row maps to a
complete typed row). -/
def OverrideRow.isComplete (o : OverrideRow) : Bool :=
  o.personKey.isSome && o.projectKey.isSome && o.laborCategoryName.isSome &&
  o.beginDate.isSome && o.endDate.isSome && o.newBillRate.isSome

/-- The five-field composite join key. -/
abbrev Key := Option Int × Option Int × Option String × Option PDate × Option PDate

deriving instance DecidableEq for Except

instance : DecidableEq (Key × ℚ) := instDecidableEqProd

/-- Composite key of an override row. -/
def overrideKey (o : OverrideRow) : Key :=
  (o.personKey, o.projectKey, o.laborCategoryName, o.beginDate, o.endDate)

/-- Composite key of a baseline row. -/
def planKey (p : PlanRow) : Key :=
  (p.personKey, p.projectKey, p.laborCategoryName, p.beginDate, p.endDate)

/-- Inserts a rate for a key into the association list built by the
groupby-max, keeping the maximum rate when the key is already present. -/
def insertMax : List (Key × ℚ) → Key → ℚ → List (Key × ℚ)
  | [], k, r => [(k, r)]
  | (k', r') :: rest, k, r =>
    if k' = k then (k', max r' r) :: rest else (k', r') :: insertMax rest k r

/-- One groupby-max step: a row with a rate contributes it to its key group. -/
def collapseStep (acc : List (Key × ℚ)) (o : OverrideRow) : List (Key × ℚ) :=
  match o.newBillRate with
  | some r => insertMax acc (overrideKey o) r
  | none => acc

/-- The groupby-max of lines 109-112: one entry per composite key, holding
the maximum `new_billRate` of the key group. -/
def collapse (os : List OverrideRow) : List (Key × ℚ) :=
  os.foldl collapseStep []

/-- Keys of the collapsed table. -/
def keysOf (ov : List (Key × ℚ)) : List Key :=
  ov.map Prod.fst

/-- Rate attached to a key by the collapsed table, if any. -/
def lookupRate (ov : List (Key × ℚ)) (k : Key) : Option ℚ :=
  (ov.find? (fun kr => decide (kr.1 = k))).map Prod.snd

/-- Maximum-rate combination on optional rates. -/
def omaxO : Option ℚ → Option ℚ → Option ℚ
  | none, r => r
  | some a, none => some a
  | some a, some b => some (max a b)

/-- One step of the specification-side group maximum for a fixed key. -/
def rateStep (k : Key) (m : Option ℚ) (o : OverrideRow) : Option ℚ :=
  if overrideKey o = k then omaxO m o.newBillRate else m

/-- Maximum `new_billRate` among the rows of a key group (the value the
spec says must survive the collapse). -/
def groupMaxRate (os : List OverrideRow) (k : Key) : Option ℚ :=
  os.foldl (rateStep k) none

/-- The pandas left merge of lines 115-119: every baseline row is kept in
order; a baseline row is repeated once per matching right-hand row, and
rows without a match get a null attached rate. -/
def leftMerge : List PlanRow → List (Key × ℚ) → List (PlanRow × Option ℚ)
  | [], _ => []
  | p :: ps, ov =>
    (match ov.filter (fun kr => decide (kr.1 = planKey p)) with
     | [] => [(p, none)]
     | ms => ms.map (fun kr => (p, some kr.2))) ++ leftMerge ps ov

/-- `combine_first` plus the helper-column drop (lines 122-125): the
attached override rate wins whenever it is present, otherwise the original
`billRate` is kept. -/
def applyRate (pr : PlanRow × Option ℚ) : PlanRow :=
  { pr.1 with billRate := pr.2.or pr.1.billRate }

/-- Steps 1 and 2 of the reconciliation: drop incomplete override rows,
then collapse by composite key keeping the maximum rate. -/
def dedupOverrides (O : List OverrideRow) : List (Key × ℚ) :=
  collapse (O.filter OverrideRow.isComplete)

/-- The rate reconciliation on normalized tables (lines 108-125): dedup the
overrides, left-merge them onto the baseline, substitute rates, drop the
helper column. -/
def reconcile (B : List PlanRow) (O : List OverrideRow) : List PlanRow :=
  (leftMerge B (dedupOverrides O)).map applyRate

/-- A baseline row with its rate forgotten; used to state that everything
except `billRate` is preserved positionally. -/
def eraseRate (p : PlanRow) : PlanRow :=
  { p with billRate := none }

/-- Column-wise fallible conversion, the effect of an `astype` call on a
whole column: the converted column, or the first cell error. -/
def colMapE (f : α → Except Err β) : List α → Except Err (List β)
  | [] => Except.ok []
  | a :: as =>
    match f a with
    | Except.error e => Except.error e
    | Except.ok b =>
      match colMapE f as with
      | Except.error e => Except.error e
      | Except.ok bs => Except.ok (b :: bs)

/-- Reassembles typed override rows from the converted columns (the frame
after lines 88-104, with `laborCategory.name` passed through). -/
def buildOverrides : List RawOverrideRow → List (Option Int) → List (Option Int) →
    List (Option ℚ) → List (Option PDate) → List (Option PDate) → List OverrideRow
  | r :: rs, pk :: pks, pj :: pjs, rt :: rts, bd :: bds, ed :: eds =>
    ⟨pk, pj, r.laborCategoryName, bd, ed, rt⟩ :: buildOverrides rs pks pjs rts bds eds
  | _, _, _, _, _, _ => []

/-- Reassembles typed baseline rows from the converted columns (the frame
after lines 90-106; `billRate` and the passthrough columns are untouched). -/
def buildPlans : List RawPlanRow → List (Option Int) → List (Option Int) →
    List (Option PDate) → List (Option PDate) → List PlanRow
  | r :: rs, pk :: pks, pj :: pjs, bd :: bds, ed :: eds =>
    ⟨pk, pj, r.laborCategoryName, bd, ed, r.billRate, r.extra⟩ :: buildPlans rs pks pjs bds eds
  | _, _, _, _, _ => []

/-- The row-count post-condition of lines 128-133: on mismatch, fail with a
distinguished error carrying both counts; otherwise return the table for
persistence. -/
def checkRowCount (original : Nat) (t : List PlanRow) : Except Err (List PlanRow) :=
  if t.length ≠ original then Except.error (Err.rowCountMismatch original t.length)
  else Except.ok t

/-- The whole `update_bill_rate` pipeline on in-memory tables (lines
84-136), with the column conversions in source order.  `Except.ok` is the
path that writes the result back; any `Except.error` is a 500 response with
nothing persisted. -/
def update_bill_rate (rawB : List RawPlanRow) (rawO : List RawOverrideRow) :
    Except Err (List PlanRow) := do
  let kept := rawO.filter RawOverrideRow.rawComplete
  let oPks ← colMapE (fun r => toInt64Cell r.personKey) kept
  let oPjs ← colMapE (fun r => toInt64Cell r.projectKey) kept
  let bPks ← colMapE (fun r => toInt64Cell r.personKey) rawB
  let bPjs ← colMapE (fun r => toInt64Cell r.projectKey) rawB
  let oRates ← colMapE (fun r => parseRateCell r.newBillRate) kept
  let oBds ← colMapE (fun r => toDateCell r.beginDate) kept
  let oEds ← colMapE (fun r => toDateCell r.endDate) kept
  let bBds ← colMapE (fun r => toDateCell r.beginDate) rawB
  let bEds ← colMapE (fun r => toDateCell r.endDate) rawB
  let O := buildOverrides kept oPks oPjs oRates oBds oEds
  let B := buildPlans rawB bPks bPjs bBds bEds
  checkRowCount B.length (reconcile B O)

/-- True unless the result is the row-count-mismatch error. -/
def mismatchFree : Except Err α → Bool
  | Except.error (Err.rowCountMismatch _ _) => false
  | _ => true

/-- Concrete composite key used by the scenario rows below. -/
def exKey : Key :=
  (some 1, some 10, some "Engineer", some ⟨2024, 1, 1⟩, some ⟨2024, 6, 30⟩)

/-- Scenario baseline row (spec section 8) with rate 100. -/
def exPlan : PlanRow :=
  ⟨some 1, some 10, some "Engineer", some ⟨2024, 1, 1⟩, some ⟨2024, 6, 30⟩, some 100, "pass"⟩

/-- Override row on the scenario key with rate 0. -/
def exOvZero : OverrideRow :=
  ⟨some 1, some 10, some "Engineer", some ⟨2024, 1, 1⟩, some ⟨2024, 6, 30⟩, some 0⟩

/-- Override row on the scenario key with rate 100. -/
def exOv100 : OverrideRow :=
  ⟨some 1, some 10, some "Engineer", some ⟨2024, 1, 1⟩, some ⟨2024, 6, 30⟩, some 100⟩

/-- Override row on the scenario key with rate 150. -/
def exOv150 : OverrideRow :=
  ⟨some 1, some 10, some "Engineer", some ⟨2024, 1, 1⟩, some ⟨2024, 6, 30⟩, some 150⟩

/-- Raw baseline row whose `person.key` text is non-numeric. -/
def exBadKeyRaw : RawPlanRow :=
  ⟨some "abc", some "10", some "Engineer", some "2024-01-01", some "2024-06-30", some 100, "pass"⟩

/-- Raw override row with valid keys and the malformed rate text `12x`. -/
def exBadRateRaw : RawOverrideRow :=
  ⟨some "1", some "10", some "Engineer", some "2024-01-01", some "2024-06-30", some "12x"⟩

/-- Raw override row with a missing (null) `person.key`. -/
def exNullKeyRaw : RawOverrideRow :=
  ⟨none, some "10", some "Engineer", some "2024-01-01", some "2024-06-30", some "150"⟩

/-- Raw baseline row that normalizes to `exPlan`. -/
def exPlanRaw : RawPlanRow :=
  ⟨some "1", some "10", some "Engineer", some "2024-01-01", some "2024-06-30", some 100, "pass"⟩

theorem omaxO_none_right (m : Option ℚ) : omaxO m none = m := by
  cases m <;> rfl

theorem lookupRate_nil (k : Key) : lookupRate [] k = none := rfl

theorem lookupRate_cons_self (k : Key) (r : ℚ) (tl : List (Key × ℚ)) :
    lookupRate ((k, r) :: tl) k = some r := by
  simp [lookupRate, List.find?_cons_of_pos]

theorem lookupRate_cons_ne (k' k : Key) (r' : ℚ) (tl : List (Key × ℚ)) (h : k' ≠ k) :
    lookupRate ((k', r') :: tl) k = lookupRate tl k := by
  simp [lookupRate, List.find?_cons_of_neg, h]

theorem lookupRate_insertMax_self (acc : List (Key × ℚ)) (k : Key) (r : ℚ) :
    lookupRate (insertMax acc k r) k = omaxO (lookupRate acc k) (some r) := by
  induction acc with
  | nil => simp [insertMax, lookupRate_cons_self, lookupRate_nil, omaxO]
  | cons hd tl ih =>
    obtain ⟨k', r'⟩ := hd
    by_cases hk : k' = k
    · subst hk
      simp [insertMax, lookupRate_cons_self, omaxO]
    · simp [insertMax, hk, lookupRate_cons_ne _ _ _ _ hk, ih]

theorem lookupRate_insertMax_ne (acc : List (Key × ℚ)) (k k' : Key) (r : ℚ) (h : k' ≠ k) :
    lookupRate (insertMax acc k r) k' = lookupRate acc k' := by
  induction acc with
  | nil =>
    simp [insertMax, lookupRate_cons_ne _ _ _ _ (fun hh => h hh.symm), lookupRate_nil]
  | cons hd tl ih =>
    obtain ⟨k'', r''⟩ := hd
    by_cases hk : k'' = k
    · subst hk
      simp [insertMax, lookupRate_cons_ne, h]
      by_cases hk2 : k'' = k'
      · exact absurd (hk2.symm) h
      · rw [lookupRate_cons_ne _ _ _ _ hk2, lookupRate_cons_ne _ _ _ _ hk2]
    · simp only [insertMax, if_neg hk]
      by_cases hk2 : k'' = k'
      · subst hk2
        rw [lookupRate_cons_self, lookupRate_cons_self]
      · rw [lookupRate_cons_ne _ _ _ _ hk2, lookupRate_cons_ne _ _ _ _ hk2, ih]

theorem keysOf_insertMax (acc : List (Key × ℚ)) (k : Key) (r : ℚ) :
    keysOf (insertMax acc k r) =
      if k ∈ keysOf acc then keysOf acc else keysOf acc ++ [k] := by
  induction acc with
  | nil => simp [insertMax, keysOf]
  | cons hd tl ih =>
    obtain ⟨k', r'⟩ := hd
    by_cases hk : k' = k
    · subst hk
      simp [insertMax, keysOf]
    · simp only [insertMax, if_neg hk, keysOf, List.map_cons] at ih ⊢
      rw [ih]
      by_cases hm : k ∈ List.map Prod.fst tl
      · simp [hm, Ne.symm hk]
      · simp [hm, Ne.symm hk]

theorem nodup_keysOf_insertMax (acc : List (Key × ℚ)) (k : Key) (r : ℚ)
    (h : (keysOf acc).Nodup) : (keysOf (insertMax acc k r)).Nodup := by
  rw [keysOf_insertMax]
  by_cases hm : k ∈ keysOf acc
  · simpa [hm]
  · simp only [if_neg hm]
    simp [List.nodup_append, h, hm]

theorem nodup_keysOf_collapseStep (acc : List (Key × ℚ)) (o : OverrideRow)
    (h : (keysOf acc).Nodup) : (keysOf (collapseStep acc o)).Nodup := by
  unfold collapseStep
  cases o.newBillRate with
  | none => exact h
  | some r => exact nodup_keysOf_insertMax _ _ _ h

theorem nodup_keysOf_collapse_aux (os : List OverrideRow) :
    ∀ acc : List (Key × ℚ), (keysOf acc).Nodup →
      (keysOf (os.foldl collapseStep acc)).Nodup := by
  induction os with
  | nil => intro acc h; simpa using h
  | cons o os ih =>
    intro acc h
    exact ih _ (nodup_keysOf_collapseStep _ _ h)

theorem nodup_keysOf_collapse (os : List OverrideRow) :
    (keysOf (collapse os)).Nodup := by
  exact nodup_keysOf_collapse_aux os [] (by simp [keysOf])

theorem lookupRate_collapseStep (acc : List (Key × ℚ)) (o : OverrideRow) (k : Key) :
    lookupRate (collapseStep acc o) k = rateStep k (lookupRate acc k) o := by
  unfold collapseStep rateStep
  cases hr : o.newBillRate with
  | none =>
    simp only [hr, omaxO_none_right]
    split <;> rfl
  | some r =>
    simp only [hr]
    by_cases hk : overrideKey o = k
    · rw [if_pos hk, ← hk, lookupRate_insertMax_self, hk]
    · rw [if_neg hk, lookupRate_insertMax_ne _ _ _ _ (fun hh => hk hh.symm)]

theorem lookupRate_foldl_collapseStep (os : List OverrideRow) :
    ∀ acc : List (Key × ℚ), ∀ k : Key,
      lookupRate (os.foldl collapseStep acc) k = os.foldl (rateStep k) (lookupRate acc k) := by
  induction os with
  | nil => intro acc k; rfl
  | cons o os ih =>
    intro acc k
    simp only [List.foldl_cons]
    rw [ih, lookupRate_collapseStep]

theorem lookupRate_collapse (os : List OverrideRow) (k : Key) :
    lookupRate (collapse os) k = groupMaxRate os k := by
  unfold collapse groupMaxRate
  rw [lookupRate_foldl_collapseStep]
  rfl

theorem filter_key_nil_of_not_mem (ov : List (Key × ℚ)) (k : Key)
    (h : k ∉ keysOf ov) : ov.filter (fun kr => decide (kr.1 = k)) = [] := by
  induction ov with
  | nil => rfl
  | cons hd tl ih =>
    obtain ⟨k', r'⟩ := hd
    simp only [keysOf, List.map_cons, List.mem_cons] at h
    push_neg at h
    rw [List.filter_cons_of_neg (by simpa using Ne.symm h.1)]
    exact ih (by simpa [keysOf] using h.2)

theorem filter_key_eq_lookup (ov : List (Key × ℚ)) (k : Key)
    (h : (keysOf ov).Nodup) :
    ov.filter (fun kr => decide (kr.1 = k)) =
      (match lookupRate ov k with
       | some r => [(k, r)]
       | none => []) := by
  induction ov with
  | nil => rfl
  | cons hd tl ih =>
    obtain ⟨k', r'⟩ := hd
    simp only [keysOf, List.map_cons, List.nodup_cons] at h
    by_cases hk : k' = k
    · subst hk
      rw [List.filter_cons_of_pos (by simp), lookupRate_cons_self,
        filter_key_nil_of_not_mem tl k' h.1]
    · rw [List.filter_cons_of_neg (by simpa using hk), lookupRate_cons_ne _ _ _ _ hk]
      exact ih h.2

theorem mem_iff_lookupRate (ov : List (Key × ℚ)) (k : Key) (r : ℚ)
    (h : (keysOf ov).Nodup) : (k, r) ∈ ov ↔ lookupRate ov k = some r := by
  induction ov with
  | nil => simp [lookupRate_nil]
  | cons hd tl ih =>
    obtain ⟨k', r'⟩ := hd
    simp only [keysOf, List.map_cons, List.nodup_cons] at h
    by_cases hk : k' = k
    · subst hk
      rw [lookupRate_cons_self]
      constructor
      · intro hm
        rcases List.mem_cons.mp hm with he | hm2
        · rw [Prod.mk.injEq] at he
          rw [he.2]
        · exact absurd (List.mem_map_of_mem Prod.fst hm2) (by simpa using h.1)
      · intro hs
        have : r' = r := by simpa using hs
        subst this
        exact List.mem_cons_self _ _
    · rw [lookupRate_cons_ne _ _ _ _ hk]
      rw [← ih h.2]
      constructor
      · intro hm
        rcases List.mem_cons.mp hm with he | hm2
        · rw [Prod.mk.injEq] at he
          exact absurd he.1.symm hk
        · exact hm2
      · intro hm
        exact List.mem_cons_of_mem _ hm

theorem leftMerge_eq_map (B : List PlanRow) (ov : List (Key × ℚ))
    (h : (keysOf ov).Nodup) :
    leftMerge B ov = B.map (fun p => (p, lookupRate ov (planKey p))) := by
  induction B with
  | nil => rfl
  | cons p ps ih =>
    simp only [leftMerge, List.map_cons]
    rw [filter_key_eq_lookup ov (planKey p) h, ih]
    cases hf : lookupRate ov (planKey p) with
    | none => rfl
    | some r => rfl

theorem nodup_keysOf_dedupOverrides (O : List OverrideRow) :
    (keysOf (dedupOverrides O)).Nodup := by
  unfold dedupOverrides
  exact nodup_keysOf_collapse _

theorem reconcile_eq_map (B : List PlanRow) (O : List OverrideRow) :
    reconcile B O =
      B.map (fun p =>
        { p with billRate := (lookupRate (dedupOverrides O) (planKey p)).or p.billRate }) := by
  unfold reconcile
  rw [leftMerge_eq_map _ _ (nodup_keysOf_dedupOverrides O), List.map_map]
  rfl

theorem rateStep_mono (k : Key) (m : Option ℚ) (o : OverrideRow) (a : ℚ)
    (hm : m = some a) : ∃ a', rateStep k m o = some a' ∧ a ≤ a' := by
  subst hm
  unfold rateStep
  by_cases hk : overrideKey o = k
  · rw [if_pos hk]
    cases hr : o.newBillRate with
    | none => exact ⟨a, rfl, le_refl a⟩
    | some b => exact ⟨max a b, rfl, le_max_left a b⟩
  · rw [if_neg hk]
    exact ⟨a, rfl, le_refl a⟩

theorem foldl_rateStep_mono (k : Key) (os : List OverrideRow) :
    ∀ m : Option ℚ, ∀ r : ℚ, os.foldl (rateStep k) m = some r →
      ∀ a : ℚ, m = some a → a ≤ r := by
  induction os with
  | nil =>
    intro m r h a hm
    rw [hm, List.foldl_nil] at h
    have har : a = r := by simpa using h
    rw [har]
  | cons o os ih =>
    intro m r h a hm
    obtain ⟨a', ha', hle⟩ := rateStep_mono k m o a hm
    simp only [List.foldl_cons] at h
    exact le_trans hle (ih _ r h a' ha')

theorem foldl_rateStep_isUB (k : Key) (os : List OverrideRow) :
    ∀ m : Option ℚ, ∀ r : ℚ, os.foldl (rateStep k) m = some r →
      ∀ o ∈ os, overrideKey o = k → ∀ r', o.newBillRate = some r' → r' ≤ r := by
  induction os with
  | nil => intro m r _ o ho; cases ho
  | cons o os ih =>
    intro m r h o' ho' hk r' hr'
    simp only [List.foldl_cons] at h
    rcases List.mem_cons.mp ho' with he | hm2
    · subst he
      have hstep : ∃ c, rateStep k m o' = some c ∧ r' ≤ c := by
        unfold rateStep
        rw [if_pos hk, hr']
        cases m with
        | none => exact ⟨r', rfl, le_refl r'⟩
        | some a => exact ⟨max a r', rfl, le_max_right a r'⟩
      obtain ⟨c, hc, hle⟩ := hstep
      exact le_trans hle (foldl_rateStep_mono k os _ r (hc ▸ h) c rfl)
    · exact ih _ r h o' hm2 hk r' hr'

theorem foldl_rateStep_attained (k : Key) (os : List OverrideRow) :
    ∀ m : Option ℚ, ∀ r : ℚ, os.foldl (rateStep k) m = some r →
      m = some r ∨ ∃ o ∈ os, overrideKey o = k ∧ o.newBillRate = some r := by
  induction os with
  | nil =>
    intro m r h
    simp only [List.foldl_nil] at h
    exact Or.inl h
  | cons o os ih =>
    intro m r h
    simp only [List.foldl_cons] at h
    rcases ih _ r h with hm' | ⟨o', ho', hk', hr'⟩
    · unfold rateStep at hm'
      by_cases hk : overrideKey o = k
      · rw [if_pos hk] at hm'
        cases hr : o.newBillRate with
        | none =>
          rw [hr, omaxO_none_right] at hm'
          exact Or.inl hm'
        | some b =>
          rw [hr] at hm'
          cases m with
          | none =>
            have hbr : b = r := by simpa [omaxO] using hm'
            exact Or.inr ⟨o, List.mem_cons_self _ _, hk, by rw [hr, hbr]⟩
          | some a =>
            have har : max a b = r := by simpa [omaxO] using hm'
            rcases max_choice a b with hab | hab
            · exact Or.inl (by rw [← har, hab])
            · exact Or.inr ⟨o, List.mem_cons_self _ _, hk, by rw [hr, ← har, hab]⟩
      · rw [if_neg hk] at hm'
        exact Or.inl hm'
    · exact Or.inr ⟨o', List.mem_cons_of_mem _ ho', hk', hr'⟩

theorem colMapE_ok_of_forall {α β : Type} (f : α → Except Err β) (l : List α)
    (h : ∀ a ∈ l, (f a).isOk = true) : ∃ bs, colMapE f l = Except.ok bs := by
  induction l with
  | nil => exact ⟨[], rfl⟩
  | cons a as ih =>
    have ha : (f a).isOk = true := h a (List.mem_cons_self _ _)
    cases hfa : f a with
    | error e => rw [hfa] at ha; cases ha
    | ok b =>
      obtain ⟨bs, hbs⟩ := ih (fun x hx => h x (List.mem_cons_of_mem _ hx))
      exact ⟨b :: bs, by simp [colMapE, hfa, hbs]⟩

theorem colMapE_append_error {α β : Type} (f : α → Except Err β) (l₁ l₂ : List α)
    (a : α) (e : Err) (h1 : ∀ x ∈ l₁, (f x).isOk = true) (ha : f a = Except.error e) :
    colMapE f (l₁ ++ a :: l₂) = Except.error e := by
  induction l₁ with
  | nil => simp [colMapE, ha]
  | cons x xs ih =>
    have hx : (f x).isOk = true := h1 x (List.mem_cons_self _ _)
    cases hfx : f x with
    | error e' => rw [hfx] at hx; cases hx
    | ok b =>
      rw [List.cons_append]
      simp [colMapE, hfx, ih (fun y hy => h1 y (List.mem_cons_of_mem _ hy))]

theorem colMapE_error_mem {α β : Type} (f : α → Except Err β) (l : List α) (e : Err)
    (h : colMapE f l = Except.error e) : ∃ a ∈ l, f a = Except.error e := by
  induction l with
  | nil => cases h
  | cons a as ih =>
    by_cases hfa : ∃ e', f a = Except.error e'
    · obtain ⟨e', he'⟩ := hfa
      simp only [colMapE, he'] at h
      cases h
      exact ⟨a, List.mem_cons_self _ _, he'⟩
    · push_neg at hfa
      cases hfb : f a with
      | error e' => exact absurd hfb (hfa e')
      | ok b =>
        simp only [colMapE, hfb] at h
        cases hrest : colMapE f as with
        | error e' =>
          rw [hrest] at h
          cases h
          obtain ⟨x, hx, hfx⟩ := ih hrest
          exact ⟨x, List.mem_cons_of_mem _ hx, hfx⟩
        | ok bs => rw [hrest] at h; cases h

theorem toInt64Cell_error_shape (c : Option String) (e : Err)
    (h : toInt64Cell c = Except.error e) : ∃ s, e = Err.badIntKey s := by
  cases c with
  | none => cases h
  | some s =>
    cases hp : parseIntStr s with
    | some n => simp [toInt64Cell, hp] at h
    | none =>
      simp only [toInt64Cell, hp] at h
      cases h
      exact ⟨s, rfl⟩

theorem toDateCell_error_shape (c : Option String) (e : Err)
    (h : toDateCell c = Except.error e) : ∃ s, e = Err.badDate s := by
  cases c with
  | none => cases h
  | some s =>
    cases hp : parseDate s with
    | some d => simp [toDateCell, hp] at h
    | none =>
      simp only [toDateCell, hp] at h
      cases h
      exact ⟨s, rfl⟩

theorem parseRateCell_error_shape (c : Option String) (e : Err)
    (h : parseRateCell c = Except.error e) : ∃ s, e = Err.malformedRate s := by
  cases c with
  | none => cases h
  | some s =>
    cases hp : pyFloat (stripCurrency s) with
    | some q => simp [parseRateCell, hp] at h
    | none =>
      simp only [parseRateCell, hp] at h
      cases h
      exact ⟨s, rfl⟩

theorem except_bind_ok {α β : Type} (a : α) (f : α → Except Err β) :
    (Except.ok a >>= f) = f a := rfl

theorem except_bind_error {α β : Type} (e : Err) (f : α → Except Err β) :
    ((Except.error e : Except Err α) >>= f) = Except.error e := rfl

theorem mismatchFree_bind {α β : Type} (x : Except Err α) (f : α → Except Err β)
    (hx : ∀ e, x = Except.error e → ∀ m n, e ≠ Err.rowCountMismatch m n)
    (hf : ∀ a, mismatchFree (f a) = true) : mismatchFree (x >>= f) = true := by
  cases x with
  | error e =>
    rw [except_bind_error]
    cases e with
    | rowCountMismatch m n => exact absurd rfl (hx _ rfl m n)
    | badIntKey s => rfl
    | badDate s => rfl
    | malformedRate s => rfl
  | ok a =>
    rw [except_bind_ok]
    exact hf a

/-- C1 (baseline preservation): for every baseline table B and override table
O, the reconciled output has exactly the length of B, and position by
position each output row is the corresponding baseline row with at most its
billRate changed — no baseline row is dropped, duplicated, or reordered. -/
theorem C1_baseline_preservation (B : List PlanRow) (O : List OverrideRow) :
    (reconcile B O).length = B.length ∧
    (reconcile B O).map eraseRate = B.map eraseRate := by
  constructor
  · rw [reconcile_eq_map]
    exact List.length_map _ _
  · rw [reconcile_eq_map, List.map_map]
    rfl

/-- C2 (substitution rule): for every joined row, the output billRate equals
the attached override rate whenever the deduplicated overrides carry a rate
for the composite key of the baseline row — including a rate of exactly
zero — and the whole row is returned unchanged when no override rate is
attached. -/
theorem C2_substitution (B : List PlanRow) (O : List OverrideRow) (i : Nat) (p : PlanRow)
    (hp : B[i]? = some p) :
    (∀ r : ℚ, lookupRate (dedupOverrides O) (planKey p) = some r →
      (reconcile B O)[i]? = some { p with billRate := some r }) ∧
    (lookupRate (dedupOverrides O) (planKey p) = none →
      (reconcile B O)[i]? = some p) := by
  constructor
  · intro r hl
    rw [reconcile_eq_map, List.getElem?_map, hp]
    simp only [Option.map_some']
    rw [hl]
    rfl
  · intro hl
    rw [reconcile_eq_map, List.getElem?_map, hp]
    simp only [Option.map_some']
    rw [hl]
    rfl

/-- C3 (max-collapse deduplication): the deduplicated override table has
pairwise distinct composite keys; a pair (k, r) is in it exactly when r is
the collapsed group value for key k among the complete override rows; and
that value is attained by some row of the group and bounds every rate of the
group from above, so it is the maximum of the group. -/
theorem C3_max_collapse (O : List OverrideRow) (k : Key) (r : ℚ) :
    (keysOf (dedupOverrides O)).Nodup ∧
    ((k, r) ∈ dedupOverrides O ↔ groupMaxRate (O.filter OverrideRow.isComplete) k = some r) ∧
    (groupMaxRate (O.filter OverrideRow.isComplete) k = some r →
      (∃ o ∈ O.filter OverrideRow.isComplete, overrideKey o = k ∧ o.newBillRate = some r) ∧
      (∀ o ∈ O.filter OverrideRow.isComplete, overrideKey o = k →
        ∀ r' : ℚ, o.newBillRate = some r' → r' ≤ r)) := by
  refine ⟨nodup_keysOf_dedupOverrides O, ?_, ?_⟩
  · rw [mem_iff_lookupRate _ _ _ (nodup_keysOf_dedupOverrides O)]
    unfold dedupOverrides
    rw [lookupRate_collapse]
  · intro h
    unfold groupMaxRate at h
    constructor
    · rcases foldl_rateStep_attained k _ none r h with hnone | hex
      · cases hnone
      · exact hex
    · intro o ho hk r' hr'
      exact foldl_rateStep_isUB k _ none r h o ho hk r' hr'

/-- C7 (no-override passthrough): with an empty override table, the
reconciliation returns the baseline table row for row identical, every
column included. -/
theorem C7_empty_override_passthrough (B : List PlanRow) : reconcile B [] = B := by
  rw [reconcile_eq_map]
  show List.map (fun p => p) B = B
  exact List.map_id' B

/-- C8 (idempotence): reconciling the output of a reconciliation once more
with the same override table leaves the billRate column unchanged. -/
theorem C8_idempotent (B : List PlanRow) (O : List OverrideRow) :
    (reconcile (reconcile B O) O).map (fun p => p.billRate) =
      (reconcile B O).map (fun p => p.billRate) := by
  rw [reconcile_eq_map B O, reconcile_eq_map, List.map_map, List.map_map, List.map_map]
  apply congrArg (fun f => List.map f B)
  funext p
  show (Option.or (lookupRate (dedupOverrides O) (planKey p))
      (Option.or (lookupRate (dedupOverrides O) (planKey p)) p.billRate)) =
    Option.or (lookupRate (dedupOverrides O) (planKey p)) p.billRate
  cases lookupRate (dedupOverrides O) (planKey p) <;> rfl

/-- C4 (incomplete-override exclusion): an override row with a missing value
in any of the five key fields or in the rate field is discarded by the
dropna step before matching; removing such a row from anywhere in the
override table leaves the entire pipeline result unchanged, so it never
changes any baseline billRate. -/
theorem C4_incomplete_excluded (rawB : List RawPlanRow) (O₁ O₂ : List RawOverrideRow)
    (r : RawOverrideRow) (h : r.rawComplete = false) :
    update_bill_rate rawB (O₁ ++ r :: O₂) = update_bill_rate rawB (O₁ ++ O₂) := by
  unfold update_bill_rate
  rw [show (O₁ ++ r :: O₂).filter RawOverrideRow.rawComplete
      = (O₁ ++ O₂).filter RawOverrideRow.rawComplete from by
    simp [List.filter_append, List.filter_cons, h]]

/-- Witness for C4: a concrete override row with a null person key is
dropped and leaves the pipeline output unchanged. -/
theorem C4_witness :
    update_bill_rate [exPlanRaw] ([] ++ exNullKeyRaw :: []) =
      update_bill_rate [exPlanRaw] ([] ++ []) :=
  C4_incomplete_excluded [exPlanRaw] [] [] exNullKeyRaw (by decide)

/-- C5 counterexample: the claim says normalization turns a non-numeric
person key into null without raising, but running the pipeline on a
baseline row whose person key text is `abc` produces a conversion error
rather than a null key. -/
theorem C5_counterexample :
    update_bill_rate [exBadKeyRaw] [] = Except.error (Err.badIntKey "abc") := by
  decide

/-- C5 amended: missing key or date cells become null without error, but a
non-numeric key cell or an unparseable date cell makes the conversion fail
with an error that aborts the operation, instead of becoming null. -/
theorem C5_amended_null_coercion (s : String) :
    toInt64Cell none = Except.ok none ∧ toDateCell none = Except.ok none ∧
    (parseIntStr s = none → toInt64Cell (some s) = Except.error (Err.badIntKey s)) ∧
    (parseDate s = none → toDateCell (some s) = Except.error (Err.badDate s)) := by
  refine ⟨rfl, rfl, ?_, ?_⟩
  · intro h
    simp [toInt64Cell, h]
  · intro h
    simp [toDateCell, h]

/-- Witness for C5 amended: the non-numeric text `abc` makes both the key
and the date conversion fail with the corresponding errors. -/
theorem C5_witness :
    toInt64Cell (some "abc") = Except.error (Err.badIntKey "abc") ∧
    toDateCell (some "abc") = Except.error (Err.badDate "abc") :=
  ⟨(C5_amended_null_coercion "abc").2.2.1 rfl, (C5_amended_null_coercion "abc").2.2.2 rfl⟩

/-- C6 (currency parsing contract): a rate cell fails with the
malformed-rate error exactly when the text, after the pure string transform
removing the currency symbol and thousands separators, does not parse as a
number; and when the first surviving override row carries such a rate while
every key cell of both tables converts, the whole pipeline returns that
error, so no output table is produced. -/
theorem C6_malformed_rate_aborts (rawB : List RawPlanRow) (rawO O₁ O₂ : List RawOverrideRow)
    (r : RawOverrideRow) (s : String)
    (hkO : ∀ o ∈ rawO.filter RawOverrideRow.rawComplete,
      (toInt64Cell o.personKey).isOk = true ∧ (toInt64Cell o.projectKey).isOk = true)
    (hkB : ∀ p ∈ rawB,
      (toInt64Cell p.personKey).isOk = true ∧ (toInt64Cell p.projectKey).isOk = true)
    (hsplit : rawO.filter RawOverrideRow.rawComplete = O₁ ++ r :: O₂)
    (hok : ∀ o ∈ O₁, (parseRateCell o.newBillRate).isOk = true)
    (hr : r.newBillRate = some s)
    (hbad : pyFloat (stripCurrency s) = none) :
    (∀ t : String, parseRateCell (some t) = Except.error (Err.malformedRate t) ↔
      pyFloat (stripCurrency t) = none) ∧
    update_bill_rate rawB rawO = Except.error (Err.malformedRate s) := by
  constructor
  · intro t
    constructor
    · intro h
      cases hp : pyFloat (stripCurrency t) with
      | some q => simp [parseRateCell, hp] at h
      | none => rfl
    · intro h
      simp [parseRateCell, h]
  · simp only [update_bill_rate]
    rw [hsplit]
    obtain ⟨b1, h1⟩ := colMapE_ok_of_forall (fun o => toInt64Cell o.personKey) (O₁ ++ r :: O₂)
      (fun a ha => (hkO a (by rw [hsplit]; exact ha)).1)
    rw [h1, except_bind_ok]
    obtain ⟨b2, h2⟩ := colMapE_ok_of_forall (fun o => toInt64Cell o.projectKey) (O₁ ++ r :: O₂)
      (fun a ha => (hkO a (by rw [hsplit]; exact ha)).2)
    rw [h2, except_bind_ok]
    obtain ⟨b3, h3⟩ := colMapE_ok_of_forall (fun p => toInt64Cell p.personKey) rawB
      (fun a ha => (hkB a ha).1)
    rw [h3, except_bind_ok]
    obtain ⟨b4, h4⟩ := colMapE_ok_of_forall (fun p => toInt64Cell p.projectKey) rawB
      (fun a ha => (hkB a ha).2)
    rw [h4, except_bind_ok]
    rw [colMapE_append_error (fun o => parseRateCell o.newBillRate) O₁ O₂ r
      (Err.malformedRate s) hok
      (by show parseRateCell r.newBillRate = _
          rw [hr]
          simp [parseRateCell, hbad])]
    rfl

/-- Witness for C6: the rate text `12x` aborts the pipeline with the
malformed-rate error. -/
theorem C6_witness :
    update_bill_rate [] [exBadRateRaw] = Except.error (Err.malformedRate "12x") :=
  (C6_malformed_rate_aborts [] [exBadRateRaw] [] [] exBadRateRaw "12x"
    (by decide) (by decide) (by decide) (by decide) rfl (by decide)).2

/-- C9 (row-count-mismatch handling): whenever the checked table length
differs from the baseline count, the post-condition check fails with the
distinguished row-count-mismatch error carrying both counts, and it never
returns a table for persistence in that case. -/
theorem C9_row_count_mismatch (orig : Nat) (t : List PlanRow) (h : t.length ≠ orig) :
    checkRowCount orig t = Except.error (Err.rowCountMismatch orig t.length) ∧
    ∀ u : List PlanRow, checkRowCount orig t ≠ Except.ok u := by
  constructor
  · simp [checkRowCount, h]
  · intro u hc
    simp [checkRowCount, h] at hc

/-- Witness for C9: checking a two-row table against an expected count of
one fails with the error carrying the counts one and two. -/
theorem C9_witness :
    checkRowCount 1 [exPlan, exPlan] = Except.error (Err.rowCountMismatch 1 2) :=
  (C9_row_count_mismatch 1 [exPlan, exPlan] (by decide)).1

/-- C10 (the mismatch branch is unreachable): reconciliation always returns
exactly as many rows as the baseline, because deduplication makes the
override keys pairwise distinct, so for every pair of raw input tables the
pipeline never produces the row-count-mismatch error. -/
theorem C10_mismatch_unreachable :
    (∀ (B : List PlanRow) (O : List OverrideRow), (reconcile B O).length = B.length) ∧
    (∀ (rawB : List RawPlanRow) (rawO : List RawOverrideRow),
      mismatchFree (update_bill_rate rawB rawO) = true) := by
  have hlen : ∀ (B : List PlanRow) (O : List OverrideRow),
      (reconcile B O).length = B.length := by
    intro B O
    rw [reconcile_eq_map]
    exact List.length_map _ _
  refine ⟨hlen, ?_⟩
  intro rawB rawO
  simp only [update_bill_rate]
  apply mismatchFree_bind
  · intro e he m n hmn
    subst hmn
    obtain ⟨a, -, ha⟩ := colMapE_error_mem _ _ _ he
    obtain ⟨s, hs⟩ := toInt64Cell_error_shape _ _ ha
    cases hs
  intro v1
  apply mismatchFree_bind
  · intro e he m n hmn
    subst hmn
    obtain ⟨a, -, ha⟩ := colMapE_error_mem _ _ _ he
    obtain ⟨s, hs⟩ := toInt64Cell_error_shape _ _ ha
    cases hs
  intro v2
  apply mismatchFree_bind
  · intro e he m n hmn
    subst hmn
    obtain ⟨a, -, ha⟩ := colMapE_error_mem _ _ _ he
    obtain ⟨s, hs⟩ := toInt64Cell_error_shape _ _ ha
    cases hs
  intro v3
  apply mismatchFree_bind
  · intro e he m n hmn
    subst hmn
    obtain ⟨a, -, ha⟩ := colMapE_error_mem _ _ _ he
    obtain ⟨s, hs⟩ := toInt64Cell_error_shape _ _ ha
    cases hs
  intro v4
  apply mismatchFree_bind
  · intro e he m n hmn
    subst hmn
    obtain ⟨a, -, ha⟩ := colMapE_error_mem _ _ _ he
    obtain ⟨s, hs⟩ := parseRateCell_error_shape _ _ ha
    cases hs
  intro v5
  apply mismatchFree_bind
  · intro e he m n hmn
    subst hmn
    obtain ⟨a, -, ha⟩ := colMapE_error_mem _ _ _ he
    obtain ⟨s, hs⟩ := toDateCell_error_shape _ _ ha
    cases hs
  intro v6
  apply mismatchFree_bind
  · intro e he m n hmn
    subst hmn
    obtain ⟨a, -, ha⟩ := colMapE_error_mem _ _ _ he
    obtain ⟨s, hs⟩ := toDateCell_error_shape _ _ ha
    cases hs
  intro v7
  apply mismatchFree_bind
  · intro e he m n hmn
    subst hmn
    obtain ⟨a, -, ha⟩ := colMapE_error_mem _ _ _ he
    obtain ⟨s, hs⟩ := toDateCell_error_shape _ _ ha
    cases hs
  intro v8
  apply mismatchFree_bind
  · intro e he m n hmn
    subst hmn
    obtain ⟨a, -, ha⟩ := colMapE_error_mem _ _ _ he
    obtain ⟨s, hs⟩ := toDateCell_error_shape _ _ ha
    cases hs
  intro v9
  simp [checkRowCount, hlen, mismatchFree]

/-- Witness for C2: an override rate of exactly zero replaces the baseline
rate of one hundred. -/
theorem C2_witness :
    (reconcile [exPlan] [exOvZero])[0]? = some { exPlan with billRate := some 0 } :=
  (C2_substitution [exPlan] [exOvZero] 0 exPlan rfl).1 0 (by decide)

/-- Witness for C3: two override rows with the same key and rates one
hundred and one hundred fifty collapse to the single rate one hundred
fifty. -/
theorem C3_witness :
    (exKey, (150 : ℚ)) ∈ dedupOverrides [exOv100, exOv150] :=
  ((C3_max_collapse [exOv100, exOv150] exKey 150).2.1).mpr (by decide)
